import Mathlib

/-!
Shallow embedding of `libcube/cubes/cube2x2simple.py`: a corner-only 2x2x2
cube model with an immutable state (corner permutation + corner orientations),
a 6-action move alphabet, a transform function, rendering and a one-hot
encoder.  Python tuples of ints become `List Nat`; the numpy target buffer of
the encoder becomes a `List (List Nat)` grid; `None` results become `Option`.
-/

namespace Cube2x2Simple

/-- `State = collections.namedtuple("State", ['corner_pos', 'corner_ort'])`. -/
structure State where
  corner_pos : List Nat
  corner_ort : List Nat
deriving DecidableEq, Repr

/-- `initial_state = State(corner_pos=tuple(range(8)), corner_ort=tuple([0]*8))`. -/
def initial_state : State :=
  { corner_pos := [0, 1, 2, 3, 4, 5, 6, 7], corner_ort := [0, 0, 0, 0, 0, 0, 0, 0] }

/-- `is_initial(state)`: content equality of both sequences with `initial_state`. -/
def is_initial (s : State) : Bool :=
  s.corner_pos == initial_state.corner_pos && s.corner_ort == initial_state.corner_ort

/-- `class Action(enum.Enum)` with the six values R, T, B, r, t, b. -/
inductive Action where
  | R | T | B | r | t | b
deriving DecidableEq, Repr, Fintype

/-- `_inverse_action` dictionary / `inverse_action(action)`. -/
def inverse_action : Action → Action
  | Action.R => Action.r
  | Action.r => Action.R
  | Action.T => Action.t
  | Action.t => Action.T
  | Action.B => Action.b
  | Action.b => Action.B

/-- `_transform_map`: for each generator action, the corner map
(old pos, new pos) and the corner rotate list (pos, flip); inverse
actions are absent (`none`), mirroring `action not in _transform_map`. -/
def _transform_map : Action → Option (List (Nat × Nat) × List (Nat × Nat))
  | Action.R => some ([(1, 2), (2, 6), (6, 5), (5, 1)], [(1, 2), (2, 1), (5, 1), (6, 2)])
  | Action.T => some ([(0, 3), (1, 0), (2, 1), (3, 2)], [])
  | Action.B => some ([(2, 3), (3, 7), (7, 6), (6, 2)], [(2, 2), (3, 1), (6, 1), (7, 2)])
  | _ => none

/-- Modelled from the spec: `_common._permute` (the module `_common` is not in
the sources).  Relocates values along the position cycle: forward, each pair
`(src, dst)` moves the value at slot `src` to slot `dst`; with `is_inv`
set, the cycle is traversed in the reverse direction (destination to source).
All reads are from the original sequence, all writes go to the copy. -/
def _permute (t : List Nat) (m : List (Nat × Nat)) (is_inv : Bool) : List Nat :=
  m.foldl (fun res p =>
    if is_inv then res.set p.1 (t.getD p.2 0) else res.set p.2 (t.getD p.1 0)) t

/-- Modelled from the spec: `_common._rotate` (the module `_common` is not in
the sources).  Adds (mod 3) each listed orientation delta to the orientation
present at the corresponding slot. -/
def _rotate (corner_ort : List Nat) (corners : List (Nat × Nat)) : List Nat :=
  corners.foldl (fun res p => res.set p.1 ((res.getD p.1 0 + p.2) % 3)) corner_ort

/-- `transform(state, action)`: looks the action up in `_transform_map`;
an absent action is an inverse, replaced by its counterpart generator with
`is_inv` set.  Both sequences are permuted along the corner map and the
rotation deltas are then added to the orientations (the same `c_rot` list is
passed to `_rotate` in both the forward and the inverse case). -/
def transform (s : State) (a : Action) : State :=
  let is_inv := (_transform_map a).isNone
  let a' := if is_inv then inverse_action a else a
  match _transform_map a' with
  | none => s
  | some (c_map, c_rot) =>
      let corner_pos := _permute s.corner_pos c_map is_inv
      let corner_ort := _rotate (_permute s.corner_ort c_map is_inv) c_rot
      { corner_pos := corner_pos, corner_ort := corner_ort }

/-- `render_action(action)`: human readable two-character form. -/
def render_action : Action → String
  | Action.R => "R+"
  | Action.T => "U+"
  | Action.B => "B+"
  | Action.r => "R-"
  | Action.t => "U-"
  | Action.b => "B-"

/-- `to_action(form)`: parse the human readable form; unrecognized text
yields `none` (Python `None`). -/
def to_action (form : String) : Option Action :=
  if form = "R+" then some Action.R
  else if form = "U+" then some Action.T
  else if form = "B+" then some Action.B
  else if form = "R-" then some Action.r
  else if form = "U-" then some Action.t
  else if form = "B-" then some Action.b
  else none

/-- `encoded_shape = (7, 24)`. -/
def encoded_shape : Nat × Nat := (7, 24)

/-- Read a cell of the numpy-style target grid (`target[r, c]`). -/
def getCell (tg : List (List Nat)) (r c : Nat) : Nat :=
  (tg.getD r []).getD c 0

/-- Write a cell of the numpy-style target grid (`target[r, c] = v`). -/
def setCell (tg : List (List Nat)) (r c v : Nat) : List (List Nat) :=
  tg.set r ((tg.getD r []).set c v)

/-- `encode_inplace(target, state)`: for each corner identity 0..6, find its
permuted position `perm_pos = state.corner_pos.index(corner_idx)`, read
`corn_ort = state.corner_ort[perm_pos]` and set
`target[corner_idx, perm_pos * 3 + corn_ort] = 1`. -/
def encode_inplace (target : List (List Nat)) (s : State) : List (List Nat) :=
  (List.range 7).foldl (fun tg corner_idx =>
    let perm_pos := s.corner_pos.indexOf corner_idx
    let corn_ort := s.corner_ort.getD perm_pos 0
    setCell tg corner_idx (perm_pos * 3 + corn_ort) 1) target

/-- A pre-zeroed buffer of the declared `encoded_shape` (7, 24). -/
def zeroBuffer : List (List Nat) := List.replicate 7 (List.replicate 24 0)

/-- The column index written by `encode_inplace` for corner identity `c`:
`perm_pos * 3 + corn_ort`. -/
def encodeCol (s : State) (c : Nat) : Nat :=
  s.corner_pos.indexOf c * 3 + s.corner_ort.getD (s.corner_pos.indexOf c) 0

/-- The state invariants of the data model: `corner_pos` is a permutation of
{0..7}, `corner_ort` has length 8 and every orientation is in {0,1,2}. -/
def ValidState (s : State) : Prop :=
  s.corner_pos.Perm (List.range 8) ∧ s.corner_ort.length = 8 ∧
    ∀ x ∈ s.corner_ort, x < 3

instance (s : State) : Decidable (ValidState s) := by
  unfold ValidState; infer_instance

/-- Reachable states: `initial_state` and everything obtained from a
reachable state by `transform`. -/
inductive Reachable : State → Prop where
  | init : Reachable initial_state
  | step (s : State) (a : Action) : Reachable s → Reachable (transform s a)

/-- Negation mod 3 of an orientation delta. -/
def neg_mod3 (d : Nat) : Nat := (3 - d % 3) % 3

/-- Like `_rotate`, but adding the negated (mod 3) deltas. -/
def _rotate_neg (corner_ort : List Nat) (corners : List (Nat × Nat)) : List Nat :=
  corners.foldl (fun res p => res.set p.1 ((res.getD p.1 0 + neg_mod3 p.2) % 3)) corner_ort

/-- The spec's description of applying an inverse action: take the generator
entry for its counterpart, traverse the position cycle in the reverse
direction (destination to source), and apply the negated (mod 3)
orientation deltas.  Written from the spec's words, to be compared with
`transform`. -/
def inverse_apply_spec (s : State) (a : Action) : State :=
  match _transform_map (inverse_action a) with
  | none => s
  | some (c_map, c_rot) =>
      { corner_pos := _permute s.corner_pos c_map true,
        corner_ort := _rotate_neg (_permute s.corner_ort c_map true) c_rot }

/-- What the code actually does for an inverse action: reverse traversal of
the counterpart's position cycle, then the same (un-negated) deltas. -/
def inverse_apply_unnegated (s : State) (a : Action) : State :=
  match _transform_map (inverse_action a) with
  | none => s
  | some (c_map, c_rot) =>
      { corner_pos := _permute s.corner_pos c_map true,
        corner_ort := _rotate (_permute s.corner_ort c_map true) c_rot }

/-- C2 counterexample: the claim fails at the concrete input
`(identity, r)`: the code adds the deltas of `R` as they are, not
negated, so `transform(identity, r)` has `corner_ort = [0,2,1,0,0,1,2,0]`
while the spec's negated-delta description yields `[0,1,2,0,0,2,1,0]`. -/
theorem c2_counterexample :
    transform initial_state Action.r ≠ inverse_apply_spec initial_state Action.r := by
  decide

/-- C2 (amended): for every state `s` and inverse action `a` (one not
present as a base generator), `transform s a` relocates `corner_pos` and
`corner_ort` along the counterpart generator's position cycle in the reverse
direction and then adds the same (un-negated, mod 3) orientation deltas of
that generator. -/
theorem c2_inverse_action_unnegated (s : State) (a : Action)
    (h : _transform_map a = none) : transform s a = inverse_apply_unnegated s a := by
  cases a <;> first
    | exact absurd h (by decide)
    | rfl

/-- C2 witness for the amended theorem, at `(identity, r)`. -/
theorem c2_witness :
    transform initial_state Action.r = inverse_apply_unnegated initial_state Action.r :=
  c2_inverse_action_unnegated initial_state Action.r (by decide)

/-- C4: each of the 3 generator actions (the ones present in
`_transform_map`) applied four times in succession to `initial_state`
yields `initial_state` again. -/
theorem c4_generator_order_four (a : Action) (h : (_transform_map a).isSome = true) :
    transform (transform (transform (transform initial_state a) a) a) a = initial_state := by
  revert h; revert a; decide

/-- C4 witness at the generator `R`. -/
theorem c4_witness :
    transform (transform (transform (transform initial_state Action.R) Action.R) Action.R)
      Action.R = initial_state :=
  c4_generator_order_four Action.R (by decide)

/-- C5: `inverse_action` is total and involutive over the 6-value
enumeration, and pairs each generator with its inverse move. -/
theorem c5_inverse_involutive :
    (∀ a : Action, inverse_action (inverse_action a) = a) ∧
      inverse_action Action.R = Action.r ∧ inverse_action Action.T = Action.t ∧
      inverse_action Action.B = Action.b := by
  decide

/-- C6: the action-token mapping round-trips for all 6 actions, and
`to_action` maps any string that is not one of the 6 tokens to `none`. -/
theorem c6_token_round_trip :
    (∀ a : Action, to_action (render_action a) = some a) ∧
      ∀ s : String, s ≠ "R+" → s ≠ "U+" → s ≠ "B+" → s ≠ "R-" → s ≠ "U-" → s ≠ "B-" →
        to_action s = none := by
  refine ⟨by decide, ?_⟩
  intro s h1 h2 h3 h4 h5 h6
  simp [to_action, h1, h2, h3, h4, h5, h6]

/-- C6 witness: the round trip at `R` and the sentinel at `"ZZ"`. -/
theorem c6_witness :
    to_action (render_action Action.R) = some Action.R ∧ to_action "ZZ" = none :=
  ⟨c6_token_round_trip.1 Action.R,
    c6_token_round_trip.2 "ZZ" (by decide) (by decide) (by decide) (by decide) (by decide)
      (by decide)⟩

/-- A list of `Nat` of length 8 is literally an 8-element list. -/
lemma list_eq_of_length_eight (l : List Nat) (h : l.length = 8) :
    ∃ x0 x1 x2 x3 x4 x5 x6 x7, l = [x0, x1, x2, x3, x4, x5, x6, x7] := by
  rcases l with _ | ⟨x0, _ | ⟨x1, _ | ⟨x2, _ | ⟨x3, _ | ⟨x4, _ | ⟨x5, _ | ⟨x6, _ | ⟨x7,
      _ | ⟨x8, tl⟩⟩⟩⟩⟩⟩⟩⟩⟩ <;>
    simp only [List.length_cons, List.length_nil] at h <;>
    try omega
  exact ⟨x0, x1, x2, x3, x4, x5, x6, x7, rfl⟩

/-- A length-8 list of naturals containing every `k < 8` is a permutation
of `range 8`. -/
lemma perm_range_of_mem (l : List Nat) (h8 : l.length = 8)
    (hm : ∀ k, k < 8 → k ∈ l) : l.Perm (List.range 8) := by
  have hsub : List.range 8 ⊆ l := fun k hk => hm k (List.mem_range.mp hk)
  have hsp : List.Subperm (List.range 8) l := (List.nodup_range 8).subperm hsub
  exact (hsp.perm_of_length_le (by simp [h8])).symm

set_option maxHeartbeats 2000000 in
/-- `transform` preserves the state invariants. -/
lemma transform_valid (s : State) (a : Action) (h : ValidState s) :
    ValidState (transform s a) := by
  obtain ⟨hperm, hortlen, hort3⟩ := h
  obtain ⟨pos, ort⟩ := s
  have hposlen : pos.length = 8 := by simpa using hperm.length_eq
  have hm : ∀ k, k < 8 → k ∈ pos := fun k hk =>
    hperm.mem_iff.mpr (List.mem_range.mpr hk)
  obtain ⟨p0, p1, p2, p3, p4, p5, p6, p7, hp⟩ := list_eq_of_length_eight _ hposlen
  obtain ⟨o0, o1, o2, o3, o4, o5, o6, o7, ho⟩ := list_eq_of_length_eight _ hortlen
  subst hp ho
  simp only [List.mem_cons, List.not_mem_nil, or_false, forall_eq_or_imp,
    forall_eq] at hort3
  cases a <;>
    · refine ⟨perm_range_of_mem _ ?_ ?_, ?_, ?_⟩
      · simp [transform, _transform_map, inverse_action, _permute, _rotate]
      · intro k hk
        have hmem := hm k hk
        simp only [List.mem_cons, List.not_mem_nil, or_false] at hmem
        simp [transform, _transform_map, inverse_action, _permute, _rotate]
        omega
      · simp [transform, _transform_map, inverse_action, _permute, _rotate]
      · intro x hx
        simp [transform, _transform_map, inverse_action, _permute, _rotate] at hx
        omega

/-- Every reachable state satisfies the invariants. -/
lemma reachable_valid (s : State) (h : Reachable s) : ValidState s := by
  induction h with
  | init => decide
  | step s a _ ih => exact transform_valid s a ih

set_option maxHeartbeats 2000000 in
/-- Round trip over valid states: applying an action and then its inverse
restores the state. -/
lemma transform_round_trip (s : State) (h : ValidState s) (a : Action) :
    transform (transform s a) (inverse_action a) = s := by
  obtain ⟨hperm, hortlen, hort3⟩ := h
  obtain ⟨pos, ort⟩ := s
  have hposlen : pos.length = 8 := by simpa using hperm.length_eq
  obtain ⟨p0, p1, p2, p3, p4, p5, p6, p7, hp⟩ := list_eq_of_length_eight _ hposlen
  obtain ⟨o0, o1, o2, o3, o4, o5, o6, o7, ho⟩ := list_eq_of_length_eight _ hortlen
  subst hp ho
  simp only [List.mem_cons, List.not_mem_nil, or_false, forall_eq_or_imp,
    forall_eq] at hort3
  cases a <;>
    · simp [transform, _transform_map, inverse_action, _permute, _rotate,
        State.mk.injEq]
      try omega

/-- C3: for every state satisfying the invariants and every action, the
state returned by `transform` again satisfies both invariants, and both
sequences still have length 8. -/
theorem c3_transform_preserves_invariants (s : State) (a : Action) (h : ValidState s) :
    ValidState (transform s a) ∧ (transform s a).corner_pos.length = 8 ∧
      (transform s a).corner_ort.length = 8 := by
  have hv := transform_valid s a h
  exact ⟨hv, by simpa using hv.1.length_eq, hv.2.1⟩

/-- C3 witness at `(identity, R)`. -/
theorem c3_witness :
    ValidState (transform initial_state Action.R) ∧
      (transform initial_state Action.R).corner_pos.length = 8 ∧
      (transform initial_state Action.R).corner_ort.length = 8 :=
  c3_transform_preserves_invariants initial_state Action.R (by decide)

/-- C1: for every reachable state `s` and every action `a`, applying `a`
and then its inverse returns the original state. -/
theorem c1_transform_inverse_cancels (s : State) (hs : Reachable s) (a : Action) :
    transform (transform s a) (inverse_action a) = s :=
  transform_round_trip s (reachable_valid s hs) a

/-- C1 witness at `(identity, R)` (identity is reachable by construction). -/
theorem c1_witness :
    transform (transform initial_state Action.R) (inverse_action Action.R) =
      initial_state :=
  c1_transform_inverse_cancels initial_state Reachable.init Action.R

/-- C9: `is_initial` holds exactly at `initial_state`; in particular it
holds at `initial_state` and fails after any single action. -/
theorem c9_goal_iff_identity :
    (∀ s : State, is_initial s = true ↔ s = initial_state) ∧
      is_initial initial_state = true ∧
      ∀ a : Action, is_initial (transform initial_state a) = false := by
  refine ⟨?_, by decide, by decide⟩
  intro s
  cases s with
  | mk pos ort => simp [is_initial, initial_state, State.mk.injEq]

lemma encodeCol_lt (s : State) (h : ValidState s) (c : Nat) (hc : c < 8) :
    s.corner_pos.indexOf c < 8 ∧ encodeCol s c < 24 := by
  obtain ⟨hperm, hortlen, hort3⟩ := h
  have hmem : c ∈ s.corner_pos := hperm.mem_iff.mpr (List.mem_range.mpr hc)
  have hidx : s.corner_pos.indexOf c < s.corner_pos.length :=
    List.indexOf_lt_length.mpr hmem
  have hlen : s.corner_pos.length = 8 := by simpa using hperm.length_eq
  rw [hlen] at hidx
  have hp' : s.corner_pos.indexOf c < s.corner_ort.length := by omega
  have ho : s.corner_ort.getD (s.corner_pos.indexOf c) 0 < 3 := by
    rw [List.getD_eq_getElem _ _ hp']
    exact hort3 _ (List.getElem_mem hp')
  refine ⟨hidx, ?_⟩
  unfold encodeCol
  omega

def Shape72 (tg : List (List Nat)) : Prop :=
  tg.length = 7 ∧ ∀ row ∈ tg, row.length = 24

lemma getD_set_ne {α} (l : List α) (m n : Nat) (x d : α) (h : m ≠ n) :
    (l.set m x).getD n d = l.getD n d := by
  simp [List.getD_eq_getElem?_getD, List.getElem?_set_ne h]

lemma getD_set_self {α} (l : List α) (n : Nat) (x d : α) (h : n < l.length) :
    (l.set n x).getD n d = x := by
  simp [List.getD_eq_getElem?_getD, List.getElem?_set_eq_of_lt x h]

lemma rows_length (tg : List (List Nat)) (h : Shape72 tg) (r : Nat) (hr : r < 7) :
    (tg.getD r []).length = 24 := by
  obtain ⟨hlen, hrow⟩ := h
  rw [List.getD_eq_getElem _ _ (by omega)]
  exact hrow _ (List.getElem_mem (by omega))

lemma setCell_shape (tg : List (List Nat)) (r k v : Nat) (h : Shape72 tg) (hr : r < 7) :
    Shape72 (setCell tg r k v) := by
  obtain ⟨hlen, hrow⟩ := h
  refine ⟨by simp [setCell, hlen], ?_⟩
  intro row hmem
  rcases List.mem_or_eq_of_mem_set hmem with hm | hm
  · exact hrow _ hm
  · subst hm
    rw [List.length_set]
    exact rows_length tg ⟨hlen, hrow⟩ r hr

lemma getCell_setCell_ne (tg : List (List Nat)) (r k v c j : Nat) (hne : c ≠ r) :
    getCell (setCell tg r k v) c j = getCell tg c j := by
  unfold getCell setCell
  rw [getD_set_ne _ _ _ _ _ (Ne.symm hne)]

lemma getCell_setCell_self (tg : List (List Nat)) (r k v j : Nat) (h : Shape72 tg)
    (hr : r < 7) (hk : k < 24) :
    getCell (setCell tg r k v) r j = if j = k then v else getCell tg r j := by
  have h7 := h.1
  have hrl := rows_length tg h r hr
  unfold getCell setCell
  rw [getD_set_self _ _ _ _ (by omega)]
  by_cases hj : j = k
  · subst hj
    rw [getD_set_self _ _ _ _ (by omega)]
    simp
  · rw [getD_set_ne _ _ _ _ _ (Ne.symm hj)]
    simp [hj]

lemma encode_inplace_eq (target : List (List Nat)) (s : State) :
    encode_inplace target s =
      setCell (setCell (setCell (setCell (setCell (setCell (setCell target
        0 (encodeCol s 0) 1) 1 (encodeCol s 1) 1) 2 (encodeCol s 2) 1)
        3 (encodeCol s 3) 1) 4 (encodeCol s 4) 1) 5 (encodeCol s 5) 1)
        6 (encodeCol s 6) 1 := rfl

lemma encode_cell (s : State) (hv : ValidState s) (target : List (List Nat))
    (h : Shape72 target) :
    ∀ c, c < 7 → ∀ j, j < 24 →
      getCell (encode_inplace target s) c j =
        if j = encodeCol s c then 1 else getCell target c j := by
  have hk : ∀ c, c < 8 → encodeCol s c < 24 := fun c hc => (encodeCol_lt s hv c hc).2
  have h0 : Shape72 (setCell target 0 (encodeCol s 0) 1) :=
    setCell_shape _ _ _ _ h (by omega)
  have h1 : Shape72 (setCell (setCell target 0 (encodeCol s 0) 1)
      1 (encodeCol s 1) 1) := setCell_shape _ _ _ _ h0 (by omega)
  have h2 : Shape72 (setCell (setCell (setCell target 0 (encodeCol s 0) 1)
      1 (encodeCol s 1) 1) 2 (encodeCol s 2) 1) := setCell_shape _ _ _ _ h1 (by omega)
  have h3 : Shape72 (setCell (setCell (setCell (setCell target 0 (encodeCol s 0) 1)
      1 (encodeCol s 1) 1) 2 (encodeCol s 2) 1) 3 (encodeCol s 3) 1) :=
    setCell_shape _ _ _ _ h2 (by omega)
  have h4 : Shape72 (setCell (setCell (setCell (setCell (setCell target
      0 (encodeCol s 0) 1) 1 (encodeCol s 1) 1) 2 (encodeCol s 2) 1)
      3 (encodeCol s 3) 1) 4 (encodeCol s 4) 1) := setCell_shape _ _ _ _ h3 (by omega)
  have h5 : Shape72 (setCell (setCell (setCell (setCell (setCell (setCell target
      0 (encodeCol s 0) 1) 1 (encodeCol s 1) 1) 2 (encodeCol s 2) 1)
      3 (encodeCol s 3) 1) 4 (encodeCol s 4) 1) 5 (encodeCol s 5) 1) :=
    setCell_shape _ _ _ _ h4 (by omega)
  intro c hc j hj
  rw [encode_inplace_eq]
  interval_cases c
  · rw [getCell_setCell_ne _ 6 _ _ 0 _ (by omega), getCell_setCell_ne _ 5 _ _ 0 _ (by omega),
      getCell_setCell_ne _ 4 _ _ 0 _ (by omega), getCell_setCell_ne _ 3 _ _ 0 _ (by omega),
      getCell_setCell_ne _ 2 _ _ 0 _ (by omega), getCell_setCell_ne _ 1 _ _ 0 _ (by omega),
      getCell_setCell_self _ _ _ _ _ h (by omega) (hk 0 (by omega))]
  · rw [getCell_setCell_ne _ 6 _ _ 1 _ (by omega), getCell_setCell_ne _ 5 _ _ 1 _ (by omega),
      getCell_setCell_ne _ 4 _ _ 1 _ (by omega), getCell_setCell_ne _ 3 _ _ 1 _ (by omega),
      getCell_setCell_ne _ 2 _ _ 1 _ (by omega),
      getCell_setCell_self _ _ _ _ _ h0 (by omega) (hk 1 (by omega)),
      getCell_setCell_ne _ 0 _ _ 1 _ (by omega)]
  · rw [getCell_setCell_ne _ 6 _ _ 2 _ (by omega), getCell_setCell_ne _ 5 _ _ 2 _ (by omega),
      getCell_setCell_ne _ 4 _ _ 2 _ (by omega), getCell_setCell_ne _ 3 _ _ 2 _ (by omega),
      getCell_setCell_self _ _ _ _ _ h1 (by omega) (hk 2 (by omega)),
      getCell_setCell_ne _ 1 _ _ 2 _ (by omega), getCell_setCell_ne _ 0 _ _ 2 _ (by omega)]
  · rw [getCell_setCell_ne _ 6 _ _ 3 _ (by omega), getCell_setCell_ne _ 5 _ _ 3 _ (by omega),
      getCell_setCell_ne _ 4 _ _ 3 _ (by omega),
      getCell_setCell_self _ _ _ _ _ h2 (by omega) (hk 3 (by omega)),
      getCell_setCell_ne _ 2 _ _ 3 _ (by omega), getCell_setCell_ne _ 1 _ _ 3 _ (by omega),
      getCell_setCell_ne _ 0 _ _ 3 _ (by omega)]
  · rw [getCell_setCell_ne _ 6 _ _ 4 _ (by omega), getCell_setCell_ne _ 5 _ _ 4 _ (by omega),
      getCell_setCell_self _ _ _ _ _ h3 (by omega) (hk 4 (by omega)),
      getCell_setCell_ne _ 3 _ _ 4 _ (by omega), getCell_setCell_ne _ 2 _ _ 4 _ (by omega),
      getCell_setCell_ne _ 1 _ _ 4 _ (by omega), getCell_setCell_ne _ 0 _ _ 4 _ (by omega)]
  · rw [getCell_setCell_ne _ 6 _ _ 5 _ (by omega),
      getCell_setCell_self _ _ _ _ _ h4 (by omega) (hk 5 (by omega)),
      getCell_setCell_ne _ 4 _ _ 5 _ (by omega), getCell_setCell_ne _ 3 _ _ 5 _ (by omega),
      getCell_setCell_ne _ 2 _ _ 5 _ (by omega), getCell_setCell_ne _ 1 _ _ 5 _ (by omega),
      getCell_setCell_ne _ 0 _ _ 5 _ (by omega)]
  · rw [getCell_setCell_self _ _ _ _ _ h5 (by omega) (hk 6 (by omega)),
      getCell_setCell_ne _ 5 _ _ 6 _ (by omega), getCell_setCell_ne _ 4 _ _ 6 _ (by omega),
      getCell_setCell_ne _ 3 _ _ 6 _ (by omega), getCell_setCell_ne _ 2 _ _ 6 _ (by omega),
      getCell_setCell_ne _ 1 _ _ 6 _ (by omega), getCell_setCell_ne _ 0 _ _ 6 _ (by omega)]

def oneHot (k : Nat) : List Nat :=
  (List.range 24).map fun j => if j = k then 1 else 0

lemma count_oneHot (k : Nat) (hk : k < 24) : (oneHot k).count 1 = 1 := by
  interval_cases k <;> decide

lemma getD_replicate_eq_ite {α} (d : α) (n i : Nat) (x : α) :
    (List.replicate n x).getD i d = if i < n then x else d := by
  rcases Nat.lt_or_ge i n with h | h
  · rw [List.getD_eq_getElem _ _ (by simpa using h), List.getElem_replicate,
      if_pos h]
  · rw [List.getD_eq_default _ _ (by simpa using h), if_neg (by omega)]

lemma getCell_zeroBuffer (c j : Nat) : getCell zeroBuffer c j = 0 := by
  unfold getCell zeroBuffer
  rw [getD_replicate_eq_ite]
  split
  · rw [getD_replicate_eq_ite]
    split <;> rfl
  · rfl

lemma zeroBuffer_shape : Shape72 zeroBuffer := by
  constructor
  · rfl
  · decide

lemma encode_shape (s : State) (target : List (List Nat)) (h : Shape72 target) :
    Shape72 (encode_inplace target s) := by
  rw [encode_inplace_eq]
  exact setCell_shape _ _ _ _ (setCell_shape _ _ _ _ (setCell_shape _ _ _ _
    (setCell_shape _ _ _ _ (setCell_shape _ _ _ _ (setCell_shape _ _ _ _
      (setCell_shape _ _ _ _ h (by omega)) (by omega)) (by omega)) (by omega))
      (by omega)) (by omega)) (by omega)

lemma encode_row_zero (s : State) (hv : ValidState s) (c : Nat) (hc : c < 7) :
    (encode_inplace zeroBuffer s).getD c [] = oneHot (encodeCol s c) := by
  have hsh := encode_shape s zeroBuffer zeroBuffer_shape
  have hrl := rows_length _ hsh c hc
  apply List.ext_getElem
  · rw [hrl]
    simp [oneHot]
  · intro i h1 h2
    have hi : i < 24 := by omega
    have hcell := encode_cell s hv zeroBuffer zeroBuffer_shape c hc i hi
    rw [getCell_zeroBuffer] at hcell
    unfold getCell at hcell
    rw [List.getD_eq_getElem _ _ h1] at hcell
    rw [hcell]
    simp [oneHot]

/-- C7: for every valid state, `encode_inplace` on a 7 x 24 buffer writes a
1 at `(c, perm_pos*3 + corn_ort)` for each corner identity `c` in 0..6 and
leaves every other entry of the buffer untouched (it never clears); on a
pre-zeroed buffer each row 0..6 is a one-hot row with exactly one 1. -/
theorem c7_encode_one_hot (s : State) (h : ValidState s) :
    (∀ target : List (List Nat), target.length = 7 →
        (∀ row ∈ target, row.length = 24) →
        ∀ c, c < 7 → ∀ j, j < 24 →
          getCell (encode_inplace target s) c j =
            if j = encodeCol s c then 1 else getCell target c j) ∧
      ∀ c, c < 7 →
        (encode_inplace zeroBuffer s).getD c [] = oneHot (encodeCol s c) ∧
          ((encode_inplace zeroBuffer s).getD c []).count 1 = 1 := by
  refine ⟨fun target h1 h2 => encode_cell s h target ⟨h1, h2⟩, ?_⟩
  intro c hc
  have hrow := encode_row_zero s h c hc
  refine ⟨hrow, ?_⟩
  rw [hrow]
  exact count_oneHot _ ((encodeCol_lt s h c (by omega)).2)

/-- C7 witness at `(identity, zeroed buffer, row 0, column 0)`. -/
theorem c7_witness :
    getCell (encode_inplace zeroBuffer initial_state) 0 0 =
      (if 0 = encodeCol initial_state 0 then 1 else getCell zeroBuffer 0 0) ∧
      ((encode_inplace zeroBuffer initial_state).getD 0 []).count 1 = 1 :=
  ⟨(c7_encode_one_hot initial_state (by decide)).1 zeroBuffer (by decide) (by decide)
      0 (by decide) 0 (by decide),
    ((c7_encode_one_hot initial_state (by decide)).2 0 (by decide)).2⟩

/-- C10: for every valid state, every index written by `encode_inplace` is
within the declared `(7, 24)` shape: the row index is below 7 and the
column index `perm_pos * 3 + corn_ort` is below 24. -/
theorem c10_encode_in_bounds (s : State) (h : ValidState s) :
    ∀ c, c < 7 → c < encoded_shape.1 ∧ encodeCol s c < encoded_shape.2 := by
  intro c hc
  exact ⟨hc, (encodeCol_lt s h c (by omega)).2⟩

/-- C10 witness at `(identity, corner 0)`. -/
theorem c10_witness :
    (0 : Nat) < encoded_shape.1 ∧ encodeCol initial_state 0 < encoded_shape.2 :=
  c10_encode_in_bounds initial_state (by decide) 0 (by decide)


/-- Python `corner_colors`: corner cubelet colors, clockwise from the main
label; cubelet order is first the top layer counter-clockwise from front
left, then the bottom layer. -/
def corner_colors : List (List Char) :=
  [['W', 'R', 'G'], ['W', 'B', 'R'], ['W', 'O', 'B'], ['W', 'G', 'O'],
   ['Y', 'G', 'R'], ['Y', 'R', 'B'], ['Y', 'B', 'O'], ['Y', 'O', 'G']]

/-- Python `corner_maps`: maps every 3-side cubelet to its projection on
the sides, indexed in the order of `_init_sides` (top, left, back, front,
right, bottom). -/
def corner_maps : List (List (Nat × Nat)) :=
  [[(0, 2), (3, 0), (1, 1)],
   [(0, 3), (4, 0), (3, 1)],
   [(0, 1), (2, 0), (4, 1)],
   [(0, 0), (1, 0), (2, 1)],
   [(5, 0), (1, 3), (3, 2)],
   [(5, 1), (3, 3), (4, 2)],
   [(5, 3), (4, 3), (2, 2)],
   [(5, 2), (2, 3), (1, 2)]]

/-- Python `_init_sides()`: 6 sides of 4 unfilled cells each. -/
def _init_sides : List (List (Option Char)) :=
  List.replicate 6 (List.replicate 4 none)

/-- Modelled from the spec: `_common._map_orient` (the module `_common` is
not in the sources).  Cyclically rotates the 3-element color label by the
orientation (0 = no rotation; 1 and 2 the two nontrivial rotations of a
3-cycle, in a fixed direction). -/
def _map_orient (cols : List Char) (orient : Nat) : List Char :=
  if orient = 0 then cols
  else if orient = 1 then [cols.getD 2 'W', cols.getD 0 'W', cols.getD 1 'W']
  else [cols.getD 1 'W', cols.getD 2 'W', cols.getD 0 'W']

/-- Read a cell of the sides grid (`sides[f][c]`). -/
def getSide (sides : List (List (Option Char))) (f c : Nat) : Option Char :=
  (sides.getD f []).getD c none

/-- Write a cell of the sides grid (`sides[f][c] = col`). -/
def setSide (sides : List (List (Option Char))) (f c : Nat) (v : Char) :
    List (List (Option Char)) :=
  sides.set f ((sides.getD f []).set c (some v))

/-- Apply a list of cell writes to the sides grid in order; this is the
sequencing of the two nested `for` loops of `render`. -/
def applyWrites (sides : List (List (Option Char)))
    (ws : List ((Nat × Nat) × Char)) : List (List (Option Char)) :=
  ws.foldl (fun sd w => setSide sd w.1.1 w.1.2 w.2) sides

/-- The write list of `render`: for each slot (in order), zip the slot's
placement map with the orientation-rotated colors of the cubelet occupying
it (`zip` truncation mirrors Python's `zip`). -/
def corner_writes (s : State) : List ((Nat × Nat) × Char) :=
  (s.corner_pos.zip (s.corner_ort.zip corner_maps)).flatMap
    (fun t => t.2.2.zip (_map_orient (corner_colors.getD t.1 ['W', 'W', 'W']) t.2.1))

/-- The sides grid produced by `render(state)` before the named-face
repackaging. -/
def render_sides (s : State) : List (List (Option Char)) :=
  applyWrites _init_sides (corner_writes s)

/-- Python `RenderedState` namedtuple. -/
structure RenderedState where
  top : List (Option Char)
  left : List (Option Char)
  back : List (Option Char)
  front : List (Option Char)
  right : List (Option Char)
  bottom : List (Option Char)
deriving DecidableEq, Repr

/-- Python `render(state)`: fill the sides and package them as
`RenderedState(top=sides[0], left=sides[1], back=sides[2], front=sides[3],
right=sides[4], bottom=sides[5])`. -/
def render (s : State) : RenderedState :=
  let sides := render_sides s
  { top := sides.getD 0 [], left := sides.getD 1 [], back := sides.getD 2 [],
    front := sides.getD 3 [], right := sides.getD 4 [], bottom := sides.getD 5 [] }

/-- The well-formedness of the sides grid: 6 rows of 4 cells. -/
def Shape64 (sides : List (List (Option Char))) : Prop :=
  sides.length = 6 ∧ ∀ row ∈ sides, row.length = 4

lemma rows4_length (sides : List (List (Option Char))) (h : Shape64 sides)
    (r : Nat) (hr : r < 6) : (sides.getD r []).length = 4 := by
  obtain ⟨hlen, hrow⟩ := h
  rw [List.getD_eq_getElem _ _ (by omega)]
  exact hrow _ (List.getElem_mem (by omega))

lemma setSide_shape (sides : List (List (Option Char))) (f c : Nat) (v : Char)
    (h : Shape64 sides) (hf : f < 6) : Shape64 (setSide sides f c v) := by
  obtain ⟨hlen, hrow⟩ := h
  refine ⟨by simp [setSide, hlen], ?_⟩
  intro row hmem
  rcases List.mem_or_eq_of_mem_set hmem with hm | hm
  · exact hrow _ hm
  · subst hm
    rw [List.length_set]
    exact rows4_length sides ⟨hlen, hrow⟩ f hf

lemma getSide_setSide_or (sides : List (List (Option Char))) (f c : Nat) (v : Char)
    (f' c' : Nat) :
    getSide (setSide sides f c v) f' c' = some v ∨
      getSide (setSide sides f c v) f' c' = getSide sides f' c' := by
  unfold getSide setSide
  by_cases hf : f = f'
  · subst hf
    by_cases hlt : f < sides.length
    · rw [getD_set_self _ _ _ _ hlt]
      by_cases hc : c = c'
      · subst hc
        by_cases hclt : c < (sides.getD f []).length
        · left
          rw [getD_set_self _ _ _ _ hclt]
        · right
          rw [List.set_eq_of_length_le (by omega)]
      · right
        rw [getD_set_ne _ _ _ _ _ hc]
    · right
      rw [List.set_eq_of_length_le (by omega)]
  · right
    rw [getD_set_ne _ _ _ _ _ hf]

lemma getSide_setSide_self (sides : List (List (Option Char))) (f c : Nat) (v : Char)
    (h : Shape64 sides) (hf : f < 6) (hc : c < 4) :
    getSide (setSide sides f c v) f c = some v := by
  have h6 := h.1
  have hrl := rows4_length sides h f hf
  unfold getSide setSide
  rw [getD_set_self _ _ _ _ (by omega), getD_set_self _ _ _ _ (by omega)]

lemma applyWrites_isSome (ws : List ((Nat × Nat) × Char)) :
    ∀ sides, Shape64 sides →
      (∀ w ∈ ws, w.1.1 < 6 ∧ w.1.2 < 4) →
      ∀ f c, f < 6 → c < 4 →
        ((f, c) ∈ ws.map Prod.fst ∨ (getSide sides f c).isSome = true) →
        (getSide (applyWrites sides ws) f c).isSome = true := by
  induction ws with
  | nil =>
    intro sides hsh hw f c hf hc h
    rcases h with h | h
    · simp at h
    · simpa [applyWrites] using h
  | cons w ws ih =>
    intro sides hsh hw f c hf hc h
    have hw1 := hw w (List.mem_cons_self _ _)
    show (getSide (applyWrites (setSide sides w.1.1 w.1.2 w.2) ws) f c).isSome = true
    apply ih (setSide sides w.1.1 w.1.2 w.2)
      (setSide_shape _ _ _ _ hsh hw1.1)
      (fun x hx => hw x (List.mem_cons_of_mem _ hx)) f c hf hc
    rcases h with hmem | hsome
    · rw [List.map_cons, List.mem_cons] at hmem
      rcases hmem with heq | hmem
      · right
        have hf' : f = w.1.1 := congrArg Prod.fst heq
        have hc' : c = w.1.2 := congrArg Prod.snd heq
        rw [hf', hc']
        rw [getSide_setSide_self _ _ _ _ hsh hw1.1 hw1.2]
        rfl
      · left
        exact hmem
    · right
      rcases getSide_setSide_or sides w.1.1 w.1.2 w.2 f c with ho | ho
      · rw [ho]
        rfl
      · rw [ho]
        exact hsome

lemma corner_colors_len (p : Nat) :
    (corner_colors.getD p ['W', 'W', 'W']).length = 3 := by
  have h8 : corner_colors.length = 8 := rfl
  rcases Nat.lt_or_ge p 8 with hp | hp
  · rw [List.getD_eq_getElem _ _ (by omega)]
    have hall : ∀ x ∈ corner_colors, x.length = 3 := by decide
    exact hall _ (List.getElem_mem (by omega))
  · rw [List.getD_eq_default _ _ (by omega)]
    rfl

lemma map_orient_len (cols : List Char) (h : cols.length = 3) (o : Nat) :
    (_map_orient cols o).length = 3 := by
  unfold _map_orient
  split
  · exact h
  · split <;> rfl

lemma corner_writes_keys (s : State) (hp : s.corner_pos.length = 8)
    (ho : s.corner_ort.length = 8) :
    (corner_writes s).map Prod.fst = corner_maps.flatten := by
  obtain ⟨pos, ort⟩ := s
  obtain ⟨p0, p1, p2, p3, p4, p5, p6, p7, hpe⟩ := list_eq_of_length_eight _ hp
  obtain ⟨o0, o1, o2, o3, o4, o5, o6, o7, hoe⟩ := list_eq_of_length_eight _ ho
  subst hpe hoe
  have h0 : ([(0, 2), (3, 0), (1, 1)] : List (Nat × Nat)).length ≤
      (_map_orient (corner_colors.getD p0 ['W', 'W', 'W']) o0).length := by
    rw [map_orient_len _ (corner_colors_len p0) o0]
    decide
  have h1 : ([(0, 3), (4, 0), (3, 1)] : List (Nat × Nat)).length ≤
      (_map_orient (corner_colors.getD p1 ['W', 'W', 'W']) o1).length := by
    rw [map_orient_len _ (corner_colors_len p1) o1]
    decide
  have h2 : ([(0, 1), (2, 0), (4, 1)] : List (Nat × Nat)).length ≤
      (_map_orient (corner_colors.getD p2 ['W', 'W', 'W']) o2).length := by
    rw [map_orient_len _ (corner_colors_len p2) o2]
    decide
  have h3 : ([(0, 0), (1, 0), (2, 1)] : List (Nat × Nat)).length ≤
      (_map_orient (corner_colors.getD p3 ['W', 'W', 'W']) o3).length := by
    rw [map_orient_len _ (corner_colors_len p3) o3]
    decide
  have h4 : ([(5, 0), (1, 3), (3, 2)] : List (Nat × Nat)).length ≤
      (_map_orient (corner_colors.getD p4 ['W', 'W', 'W']) o4).length := by
    rw [map_orient_len _ (corner_colors_len p4) o4]
    decide
  have h5 : ([(5, 1), (3, 3), (4, 2)] : List (Nat × Nat)).length ≤
      (_map_orient (corner_colors.getD p5 ['W', 'W', 'W']) o5).length := by
    rw [map_orient_len _ (corner_colors_len p5) o5]
    decide
  have h6 : ([(5, 3), (4, 3), (2, 2)] : List (Nat × Nat)).length ≤
      (_map_orient (corner_colors.getD p6 ['W', 'W', 'W']) o6).length := by
    rw [map_orient_len _ (corner_colors_len p6) o6]
    decide
  have h7 : ([(5, 2), (2, 3), (1, 2)] : List (Nat × Nat)).length ≤
      (_map_orient (corner_colors.getD p7 ['W', 'W', 'W']) o7).length := by
    rw [map_orient_len _ (corner_colors_len p7) o7]
    decide
  simp only [corner_writes, corner_maps, List.zip_cons_cons, List.zip_nil_right,
    List.zip_nil_left, List.flatMap_cons, List.flatMap_nil, List.map_append,
    List.map_nil, List.append_nil]
  rw [List.map_fst_zip _ _ h0, List.map_fst_zip _ _ h1, List.map_fst_zip _ _ h2,
    List.map_fst_zip _ _ h3, List.map_fst_zip _ _ h4, List.map_fst_zip _ _ h5,
    List.map_fst_zip _ _ h6, List.map_fst_zip _ _ h7]
  rfl

/-- C8: the static placement table `corner_maps` is a bijection from the 24
(slot, color-position) entries onto all 24 (face, cell) coordinates
(pairwise distinct, 24 of them, covering all of 6 x 4), and for every state
with 8-element sequences the cells written by `render` are exactly those 24
coordinates, so every output cell is written (filled, `isSome`) and none is
written twice or left unfilled. -/
theorem c8_placement_bijection :
    (corner_maps.flatten.Nodup ∧ corner_maps.flatten.length = 24 ∧
      ∀ f, f < 6 → ∀ c, c < 4 → (f, c) ∈ corner_maps.flatten) ∧
    ∀ s : State, s.corner_pos.length = 8 → s.corner_ort.length = 8 →
      (corner_writes s).map Prod.fst = corner_maps.flatten ∧
      ∀ f, f < 6 → ∀ c, c < 4 → (getSide (render_sides s) f c).isSome = true := by
  refine ⟨by decide, ?_⟩
  intro s hp ho
  have hkeys := corner_writes_keys s hp ho
  refine ⟨hkeys, ?_⟩
  intro f hf c hc
  have hbounds : ∀ w ∈ corner_writes s, w.1.1 < 6 ∧ w.1.2 < 4 := by
    intro w hw
    have hmem : w.1 ∈ (corner_writes s).map Prod.fst := List.mem_map_of_mem _ hw
    rw [hkeys] at hmem
    exact (by decide : ∀ x ∈ corner_maps.flatten, x.1 < 6 ∧ x.2 < 4) _ hmem
  apply applyWrites_isSome (corner_writes s) _init_sides ⟨rfl, by decide⟩ hbounds f c hf hc
  left
  rw [hkeys]
  exact (by decide : ∀ f, f < 6 → ∀ c, c < 4 → (f, c) ∈ corner_maps.flatten) f hf c hc

/-- C8 witness: the write-set equality and a filled cell at `identity`. -/
theorem c8_witness :
    (corner_writes initial_state).map Prod.fst = corner_maps.flatten ∧
      (getSide (render_sides initial_state) 0 0).isSome = true :=
  ⟨(c8_placement_bijection.2 initial_state rfl rfl).1,
    (c8_placement_bijection.2 initial_state rfl rfl).2 0 (by decide) 0 (by decide)⟩

end Cube2x2Simple
